import Mathlib

/-!
# Verification of the feathery-ml query pipeline

A shallow embedding of the core pipeline of the `feathery-ml` repository:
the code generator (`src/ai_engine/code_generator.py`), the query manager
(`src/project_manager/query_manager.py`) and the interactive chat loop
(`src/chat_manager/chat_session.py`), together with theorems settling the
specification claims about them.

Python dictionaries are modelled as ordered association lists (`Dict`), and
the mutable `self.context` dictionary of `QueryManager` is modelled through
an explicit heap of dictionary cells (`Heap`), so that aliasing facts such
as `dict.copy()` semantics are expressible.  The `qna.json` history file is
modelled by `HFile`: absent, present-but-unparseable, or a parsed JSON array
of entries.
-/

namespace FeatheryML

/-- An ordered association list modelling a Python `dict` with string keys. -/
abbrev Dict (V : Type) := List (String × V)

/-- `d[k] = v` for a Python dict: replace in place if the key exists
(keeping its position), otherwise append at the end. -/
def dictSet {V : Type} (d : Dict V) (k : String) (v : V) : Dict V :=
  if d.any (fun kv => kv.1 == k) then
    d.map (fun kv => if kv.1 == k then (k, v) else kv)
  else d ++ [(k, v)]

/-- Python `d.update(other)`: keys of `other` override, applied in order. -/
def dictUpdate {V : Type} (d other : Dict V) : Dict V :=
  other.foldl (fun acc kv => dictSet acc kv.1 kv.2) d

/-- Python `d.get(k)`: the value at `k`, or `None`. -/
def dictGet {V : Type} (d : Dict V) (k : String) : Option V :=
  (d.find? (fun kv => kv.1 == k)).map Prod.snd

/-- A heap of dictionary objects, addressed by allocation index.  Models the
identity of mutable Python dict objects (`self.context` and the copies taken
of it), so that mutation-after-copy claims can be stated. -/
structure Heap (V : Type) where
  cells : List (Dict V)
  deriving DecidableEq, Repr

/-- Dereference an address (out-of-range reads give the empty dict; all
addresses used by the model are in range). -/
def Heap.get {V : Type} (h : Heap V) (a : Nat) : Dict V :=
  (h.cells[a]?).getD []

/-- In-place mutation of the dict object at address `a`. -/
def Heap.set {V : Type} (h : Heap V) (a : Nat) (d : Dict V) : Heap V :=
  ⟨h.cells.set a d⟩

/-- Allocate a fresh dict object (models `dict.copy()` producing a new
object); returns the new heap and the fresh address. -/
def Heap.alloc {V : Type} (h : Heap V) (d : Dict V) : Heap V × Nat :=
  (⟨h.cells ++ [d]⟩, h.cells.length)

/-! ## Code generator (`src/ai_engine/code_generator.py`) -/

/-- `AnalysisQuery` (pydantic model): structured form of a query.
`data_shape` is the value stored under the `shape` key of `data_info`,
namely `getattr(data, "shape", None)`. -/
structure AnalysisQuery (V S : Type) where
  query_text : String
  data_shape : Option S
  requirements : Dict V
  deriving DecidableEq, Repr

/-- The mutable state of a `CodeGenerator` instance: `self.templates`
(initialised to `{}` and never written afterwards). -/
structure CGState where
  templates : List (String × String)
  deriving DecidableEq, Repr

/-- `CodeGenerator.validate_code(code, query)`: the body is
`return True` (the `except` branch is unreachable), so every fragment is
approved and the generator state is untouched. -/
def validate_code (st : CGState) (code query : String) : CGState × Bool :=
  (st, true)

/-- `CodeGenerator._process_query(query, data)`: builds an `AnalysisQuery`
with `data_info = {"shape": getattr(data, "shape", None)}` and default
(empty) requirements.  `shape` is the ambient `getattr(·, "shape", None)`
accessor for data values. -/
def cg_process_query {V S : Type} (shape : V → Option S) (query : String)
    (data : Option V) : AnalysisQuery V S :=
  { query_text := query, data_shape := data.bind shape, requirements := [] }

/-- Failures `CodeGenerator.generate` can re-raise. -/
inductive GenErr where
  | validationFailed
  deriving DecidableEq, Repr

/-- `CodeGenerator.generate(query, context)`: structures the query (the
`data` argument is `context.get("data") if context else None`, where an
empty dict is falsy), produces the placeholder fragment
`f"{query}\n# TODO: Implement analysis"`, validates it, and returns it;
a failed validation raises (is re-raised as) an error. -/
def generate {V S : Type} (shape : V → Option S) (st : CGState) (query : String)
    (context : Option (Dict V)) : CGState × Except GenErr String :=
  let data : Option V :=
    match context with
    | some c => if c.isEmpty then none else dictGet c "data"
    | none => none
  let _aq := cg_process_query shape query data
  let code := query ++ "\n# TODO: Implement analysis"
  match validate_code st code query with
  | (st1, true) => (st1, Except.ok code)
  | (st1, false) => (st1, Except.error GenErr.validationFailed)

/-! ## History file (`qna.json`) and the query manager
(`src/project_manager/query_manager.py`) -/

/-- Persistence failures: `json.loads` raising on an unparseable file. -/
inductive PErr where
  | parseError
  deriving DecidableEq, Repr

/-- Errors `QueryManager.process_query` can re-raise. -/
inductive QErr where
  | genError (e : GenErr)
  | persistError (e : PErr)
  deriving DecidableEq, Repr

/-- A JSON value stored in a history entry: entries hold strings (query,
code, timestamp) and one serialized dict (the context snapshot). -/
inductive HVal (V : Type) where
  | vstr (s : String)
  | vdict (d : Dict V)
  deriving DecidableEq, Repr

/-- A history entry as written to `qna.json`: a JSON object. -/
abbrev HEntry (V : Type) := List (String × HVal V)

/-- The keys of a history entry, in order. -/
def entryKeys {V : Type} (e : HEntry V) : List String :=
  e.map Prod.fst

/-- State of the `qna.json` file: absent, present but not parseable as a
JSON array, or a parsed JSON array of entries. -/
inductive HFile (V : Type) where
  | absent
  | invalid
  | valid (entries : List (HEntry V))
  deriving DecidableEq, Repr

/-- Reading the history: an absent file is an empty history.  (An invalid
file cannot be read — both update operations raise on it before writing —
so its value here is irrelevant; `[]` by convention.) -/
def readHistory {V : Type} : HFile V → List (HEntry V)
  | HFile.absent => []
  | HFile.invalid => []
  | HFile.valid es => es

/-- `QueryManager._update_history(result)`: load the existing array (an
absent file yields `[]`), append the one new entry, rewrite the whole
file; an unparseable existing file makes `json.loads` raise, which is
logged and re-raised, leaving the file as it was. -/
def update_history {V : Type} (f : HFile V) (e : HEntry V) :
    Except PErr (HFile V) :=
  match f with
  | HFile.absent => Except.ok (HFile.valid [e])
  | HFile.invalid => Except.error PErr.parseError
  | HFile.valid es => Except.ok (HFile.valid (es ++ [e]))

/-- `QueryManager.bulk_update_history(entries)`: load the existing array
(`[]` if absent), extend with the caller-supplied entries in order,
rewrite the whole file; raises on an unparseable existing file. -/
def bulk_update_history {V : Type} (f : HFile V) (es : List (HEntry V)) :
    Except PErr (HFile V) :=
  match f with
  | HFile.absent => Except.ok (HFile.valid es)
  | HFile.invalid => Except.error PErr.parseError
  | HFile.valid old => Except.ok (HFile.valid (old ++ es))

/-- Appending a list of entries one at a time through `_update_history`,
stopping at the first error. -/
def append_singly {V : Type} (f : HFile V) : List (HEntry V) → Except PErr (HFile V)
  | [] => Except.ok f
  | e :: es =>
    match update_history f e with
    | Except.ok f1 => append_singly f1 es
    | Except.error err => Except.error err

/-- `QueryResult` (dataclass): `result` is always the string
`"Analysis results placeholder"` produced by `_execute_analysis`; the
`context` field holds the address of the dict object created by
`self.context.copy()` in `_create_result`. -/
structure QueryResult (V : Type) where
  query : String
  code : String
  result : String
  timestamp : String
  context : Nat
  deriving DecidableEq, Repr

/-- The JSON object `_update_history` writes for a result: keys `query`,
`code`, `timestamp`, `context` (the snapshot dict serialized by value at
write time). -/
def resultEntry {V : Type} (h : Heap V) (r : QueryResult V) : HEntry V :=
  [("query", HVal.vstr r.query), ("code", HVal.vstr r.code),
   ("timestamp", HVal.vstr r.timestamp), ("context", HVal.vdict (h.get r.context))]

/-- The state of a `QueryManager` instance: the contained code generator's
state, the address of the `self.context` dict object, and the `qna.json`
file it reads and writes. -/
structure QMState (V : Type) where
  gen : CGState
  ctxAddr : Nat
  file : HFile V
  deriving DecidableEq, Repr

/-- `QueryManager.process_query(query, context)`.  In order, as in the
source: `if context: self.context.update(context)` (an empty dict is falsy
and skips the update); `generate(query, self.context)`;
`_execute_analysis` (a placeholder returning a fixed string);
`_create_result` with `context=self.context.copy()` (a fresh dict object);
`_update_history`.  Any raised error is logged and re-raised — note that
the context update has already happened by then.  `now` is the
`datetime.now().isoformat()` timestamp. -/
def process_query {V S : Type} (shape : V → Option S) (h : Heap V)
    (st : QMState V) (query : String) (context : Option (Dict V))
    (now : String) : Heap V × QMState V × Except QErr (QueryResult V) :=
  let h1 :=
    match context with
    | some c =>
      if c.isEmpty then h
      else h.set st.ctxAddr (dictUpdate (h.get st.ctxAddr) c)
    | none => h
  match generate shape st.gen query (some (h1.get st.ctxAddr)) with
  | (g1, Except.error e) =>
    (h1, { st with gen := g1 }, Except.error (QErr.genError e))
  | (g1, Except.ok code) =>
    let result := "Analysis results placeholder"
    let (h2, snap) := h1.alloc (h1.get st.ctxAddr)
    let qr : QueryResult V :=
      { query := query, code := code, result := result,
        timestamp := now, context := snap }
    match update_history st.file (resultEntry h2 qr) with
    | Except.ok f1 =>
      (h2, { st with gen := g1, file := f1 }, Except.ok qr)
    | Except.error e =>
      (h2, { st with gen := g1 }, Except.error (QErr.persistError e))

/-- One queued turn: query text, optional context argument, timestamp. -/
abbrev Turn (V : Type) := String × Option (Dict V) × String

/-- Running a sequence of turns through one `QueryManager`, collecting the
results of the successful ones (the chat loop catches per-turn errors and
continues). -/
def process_turns {V S : Type} (shape : V → Option S) (h : Heap V)
    (st : QMState V) : List (Turn V) → Heap V × QMState V × List (QueryResult V)
  | [] => (h, st, [])
  | (q, c, now) :: ts =>
    match process_query shape h st q c now with
    | (h1, st1, Except.ok r) =>
      let (h2, st2, rs) := process_turns shape h1 st1 ts
      (h2, st2, r :: rs)
    | (h1, st1, Except.error _) =>
      let (h2, st2, rs) := process_turns shape h1 st1 ts
      (h2, st2, rs)

/-! ## Chat session loop (`src/chat_manager/chat_session.py`) -/

/-- The state of a `ChatSession`: its `QueryManager` and the in-memory
`self.history` list (`self.context` is created but never used by the
loop). -/
structure ChatState (V : Type) where
  qm : QMState V
  history : List (HEntry V)
  deriving DecidableEq, Repr

/-- What one iteration of the `start_session` loop did with an input. -/
inductive StepResult (V : Type) where
  | exited
  | helpShown
  | historyShown
  | processed (r : QueryResult V)
  | errorShown (e : QErr)
  deriving DecidableEq, Repr

/-- The dict `_handle_result` appends to `self.history`: keys `query`,
`timestamp` (a fresh `datetime.now()` at display time), `code` — and no
`context` key. -/
def handleResultEntry {V : Type} (r : QueryResult V) (nowH : String) : HEntry V :=
  [("query", HVal.vstr r.query), ("timestamp", HVal.vstr nowH),
   ("code", HVal.vstr r.code)]

/-- Python `str.lower()` (ASCII case folding, as used on command words). -/
def pyLower (s : String) : String := String.mk (s.data.map Char.toLower)

/-- One iteration of the `while True` loop in `ChatSession.start_session`
on input `query`: `exit`/`help`/`history` are matched against
`query.lower()` before any processing; `exit` saves `self.history` via
`bulk_update_history` and breaks (if that save raises, the loop's
`except` handler catches and displays the error and the loop continues);
`help`/`history` only display; any other input is processed by
`process_query` with no context argument, a success appends a
query/timestamp/code dict to `self.history`, and a raised error is caught
and displayed by the `except` handler. -/
def session_step {V S : Type} (shape : V → Option S) (h : Heap V)
    (cs : ChatState V) (query : String) (now nowH : String) :
    Heap V × ChatState V × StepResult V :=
  if pyLower query = "exit" then
    match bulk_update_history cs.qm.file cs.history with
    | Except.ok f1 =>
      (h, { cs with qm := { cs.qm with file := f1 } }, StepResult.exited)
    | Except.error e => (h, cs, StepResult.errorShown (QErr.persistError e))
  else if pyLower query = "help" then (h, cs, StepResult.helpShown)
  else if pyLower query = "history" then (h, cs, StepResult.historyShown)
  else
    match process_query shape h cs.qm query none now with
    | (h1, qm1, Except.ok r) =>
      (h1, { qm := qm1, history := cs.history ++ [handleResultEntry r nowH] },
        StepResult.processed r)
    | (h1, qm1, Except.error e) =>
      (h1, { cs with qm := qm1 }, StepResult.errorShown e)

/-! ## Concrete instances used by witnesses and counterexamples -/

/-- The trivial shape accessor on `Nat`-valued data: model data values
carry no `shape` attribute. -/
def natShape : Nat → Option Nat := fun _ => none

/-- A one-cell heap whose cell 0 is the empty `self.context` dict. -/
def heap0 : Heap Nat := ⟨[[]]⟩

/-- A fresh query manager over `heap0` with an absent history file. -/
def qm0 : QMState Nat :=
  { gen := { templates := [] }, ctxAddr := 0, file := HFile.absent }

/-- A query manager whose history file exists but is unparseable. -/
def qmInvalid : QMState Nat :=
  { gen := { templates := [] }, ctxAddr := 0, file := HFile.invalid }

/-- A fresh chat session over `qm0` with empty in-memory history. -/
def cs0 : ChatState Nat := { qm := qm0, history := [] }

/-- A concrete query result (query `q`, code `c`, result `r`, timestamp
`t`, snapshot at address 0). -/
def qrW : QueryResult Nat := ⟨"q", "c", "r", "t", 0⟩

/-- The entry the chat session builds for a processed query `mean of A`:
exactly what `_handle_result` appends to `self.history` — keys `query`,
`timestamp`, `code`, and no `context` key. -/
def chatEnt : HEntry Nat :=
  [("query", HVal.vstr "mean of A"), ("timestamp", HVal.vstr "t"),
   ("code", HVal.vstr "mean of A\n# TODO: Implement analysis")]

/-- The heap after the turn `process_query natShape heap0 qm0 "q"
(some [("k", 1)]) "t"`: cell 0 is `self.context` (merged to `{"k": 1}`),
cell 1 the snapshot copy taken by `_create_result`. -/
def h1W : Heap Nat := ⟨[[("k", 1)], [("k", 1)]]⟩

/-- The result of that turn: its `context` field is the address (1) of the
snapshot copy. -/
def qrOkW : QueryResult Nat :=
  ⟨"q", "q\n# TODO: Implement analysis", "Analysis results placeholder", "t", 1⟩

/-- The manager state after that turn. -/
def st1W : QMState Nat :=
  { gen := { templates := [] }, ctxAddr := 0,
    file := HFile.valid [resultEntry h1W qrOkW] }

/-! ## Theorems about the code generator -/

/-- C1: the validator approves a fragment performing file access: on the
fragment `open(path).read()` (a filesystem read, outside every allow-list
capability), `validate_code` returns `True` — approved, with no violation
recorded; indeed no `ValidationVerdict`/`Violation` value exists in the
code, which returns a bare boolean that is constantly `True`. -/
theorem validate_code_approves_file_access :
    validate_code { templates := [] } "open(path).read()" "read the file at path"
      = ({ templates := [] }, true) := rfl

/-- C6: structuring a blank (whitespace-only) query does not fail: there is
no trimming check and no `EmptyQueryError` anywhere in the code.
`_process_query` returns a structured `AnalysisQuery` with the blank text,
and `generate` succeeds on it, returning the placeholder fragment. -/
theorem blank_query_structures_without_error :
    cg_process_query (fun _ : Nat => (none : Option Nat)) "   " none
      = { query_text := "   ", data_shape := none, requirements := [] } ∧
    (generate (fun _ : Nat => (none : Option Nat)) { templates := [] } "   " none).2
      = Except.ok "   \n# TODO: Implement analysis" :=
  ⟨rfl, rfl⟩

/-- C7: code generation is deterministic.  `generate` leaves the generator
state unchanged, its result does not depend on that state, and for a fixed
query/context pair the returned fragment is always the same concrete
string, so two calls on the same structured query return identical
fragments. -/
theorem generate_deterministic {V S : Type} (shape : V → Option S)
    (st st' : CGState) (query : String) (context : Option (Dict V)) :
    (generate shape st query context).1 = st ∧
    (generate shape st query context).2 = (generate shape st' query context).2 ∧
    (generate shape st query context).2
      = Except.ok (query ++ "\n# TODO: Implement analysis") :=
  ⟨rfl, rfl, rfl⟩

/-- C8: validation is idempotent and has no hidden mutable policy state:
`validate_code` returns its state unchanged, and validating the same
fragment a second time (from the state the first call returned) yields
exactly the same verdict. -/
theorem validate_code_idempotent (st : CGState) (code query : String) :
    (validate_code st code query).1 = st ∧
    validate_code (validate_code st code query).1 code query
      = validate_code st code query :=
  ⟨rfl, rfl⟩

/-! ## Heap lemmas -/

/-- Reading an untouched cell after an in-place write elsewhere. -/
theorem Heap.get_set_ne {V : Type} (h : Heap V) (a b : Nat) (d : Dict V)
    (hab : a ≠ b) : (h.set a d).get b = h.get b := by
  simp [Heap.set, Heap.get, List.getElem?_set_ne hab]

/-- Reading a cell just written in place. -/
theorem Heap.get_set_self {V : Type} (h : Heap V) (a : Nat) (d : Dict V)
    (ha : a < h.cells.length) : (h.set a d).get a = d := by
  simp [Heap.set, Heap.get, List.getElem?_set_self ha]

/-- Allocation does not disturb existing cells. -/
theorem Heap.get_alloc_lt {V : Type} (h : Heap V) (d : Dict V) (a : Nat)
    (ha : a < h.cells.length) : (h.alloc d).1.get a = h.get a := by
  simp [Heap.alloc, Heap.get, List.getElem?_append_left ha]

/-- Reading the freshly allocated cell gives the allocated dict. -/
theorem Heap.get_alloc_fresh {V : Type} (h : Heap V) (d : Dict V) (n : Nat)
    (hn : n = h.cells.length) : (h.alloc d).1.get n = d := by
  subst hn
  simp [Heap.alloc, Heap.get, List.getElem?_concat_length]

/-- Allocation makes the heap exactly one cell longer. -/
theorem Heap.length_alloc {V : Type} (h : Heap V) (d : Dict V) :
    (h.alloc d).1.cells.length = h.cells.length + 1 := by
  simp [Heap.alloc]

/-- A non-empty context argument acts exactly like pre-merging it into the
`self.context` cell and then running the turn without a context argument. -/
theorem process_query_merge_factor {V S : Type} (shape : V → Option S)
    (h : Heap V) (st : QMState V) (q : String) (cd : Dict V) (now : String)
    (hcd : ¬cd.isEmpty) :
    process_query shape h st q (some cd) now
      = process_query shape
          (h.set st.ctxAddr (dictUpdate (h.get st.ctxAddr) cd)) st q none now := by
  simp [process_query, hcd]

/-! ## Theorems about the history store -/

/-- Appending entries one at a time to a parsed array appends them in
order. -/
theorem append_singly_valid {V : Type} (es : List (HEntry V)) :
    ∀ old : List (HEntry V),
      append_singly (HFile.valid old) es = Except.ok (HFile.valid (old ++ es)) := by
  induction es with
  | nil => intro old; simp [append_singly]
  | cons e es ih =>
    intro old
    simp [append_singly, update_history, ih (old ++ [e])]

/-- C4: history round-trip.  For every non-corrupt file state (absent or a
parsed array) and every list of new entries, appending them — in bulk via
`bulk_update_history` or one at a time via `_update_history` — and then
reading the file yields the prior entries followed by exactly the new
entries in their original order, and the `i`-th new entry sits at array
position `(prior length) + i`: the positional sequence numbers are
strictly increasing and continue from the prior file's length, never
restarting at zero on a non-empty file. -/
theorem history_roundtrip {V : Type} (f : HFile V) (es : List (HEntry V))
    (hf : f ≠ HFile.invalid) :
    (bulk_update_history f es).map readHistory = Except.ok (readHistory f ++ es) ∧
    (append_singly f es).map readHistory = Except.ok (readHistory f ++ es) ∧
    ∀ i : Nat, (readHistory f ++ es)[(readHistory f).length + i]? = es[i]? := by
  refine ⟨?_, ?_, ?_⟩
  · cases f with
    | absent => simp [bulk_update_history, readHistory, Except.map]
    | invalid => exact absurd rfl hf
    | valid old => simp [bulk_update_history, readHistory, Except.map]
  · cases f with
    | absent =>
      cases es with
      | nil => simp [append_singly, readHistory, Except.map]
      | cons e es =>
        simp [append_singly, update_history, append_singly_valid es [e],
          readHistory, Except.map]
    | invalid => exact absurd rfl hf
    | valid old => simp [append_singly_valid es old, readHistory, Except.map]
  · intro i
    rw [List.getElem?_append_right (Nat.le_add_right _ i)]
    simp

/-- Witness for `history_roundtrip`: a file already holding one entry,
extended in bulk by one more. -/
theorem history_roundtrip_witness :
    (bulk_update_history (HFile.valid [[("query", HVal.vstr "q1")]])
        [[("query", HVal.vstr "q2")]]).map readHistory
      = Except.ok (readHistory (HFile.valid (V := Nat) [[("query", HVal.vstr "q1")]])
          ++ [[("query", HVal.vstr "q2")]]) ∧
    (readHistory (HFile.valid (V := Nat) [[("query", HVal.vstr "q1")]])
        ++ [[("query", HVal.vstr "q2")]])[(readHistory
          (HFile.valid (V := Nat) [[("query", HVal.vstr "q1")]])).length + 0]?
      = [[("query", HVal.vstr "q2")]][0]? :=
  ⟨(history_roundtrip (HFile.valid [[("query", HVal.vstr "q1")]])
      [[("query", HVal.vstr "q2")]] (by decide)).1,
   (history_roundtrip (HFile.valid [[("query", HVal.vstr "q1")]])
      [[("query", HVal.vstr "q2")]] (by decide)).2.2 0⟩

/-- C5 counterexample: `bulk_update_history` writes caller-supplied
objects verbatim.  The chat session's `_save_history` passes the dicts
built by `_handle_result`, which have keys `query`, `timestamp`, `code`
only; the entry written to the file therefore has no `context` key,
refuting the claim that every entry written has keys `query`, `code`,
`timestamp` and `context`. -/
theorem bulk_entry_missing_context_key :
    bulk_update_history HFile.absent [chatEnt] = Except.ok (HFile.valid [chatEnt]) ∧
    ¬ "context" ∈ entryKeys chatEnt :=
  ⟨rfl, by decide⟩

/-- C5 amended: both append operations read the full array, treating a
missing file as empty and never raising on absence, and rewrite the whole
file.  The single-entry append `_update_history` writes an object with
exactly the keys `query`, `code`, `timestamp`, `context`;
`bulk_update_history` writes the caller's objects verbatim (with no key
guarantee — see `bulk_entry_missing_context_key`). -/
theorem append_reads_full_array {V : Type} (h : Heap V) (f : HFile V)
    (r : QueryResult V) (es : List (HEntry V)) (hf : f ≠ HFile.invalid) :
    (update_history f (resultEntry h r)).map readHistory
      = Except.ok (readHistory f ++ [resultEntry h r]) ∧
    entryKeys (resultEntry h r) = ["query", "code", "timestamp", "context"] ∧
    (bulk_update_history f es).map readHistory = Except.ok (readHistory f ++ es) := by
  refine ⟨?_, rfl, ?_⟩ <;>
    cases f <;>
      simp_all [update_history, bulk_update_history, readHistory, Except.map]

/-- Witness for `append_reads_full_array` on an absent file. -/
theorem append_reads_full_array_witness :
    (update_history HFile.absent (resultEntry heap0 qrW)).map readHistory
      = Except.ok (readHistory (HFile.absent : HFile Nat) ++ [resultEntry heap0 qrW]) ∧
    entryKeys (resultEntry heap0 qrW) = ["query", "code", "timestamp", "context"] :=
  ⟨(append_reads_full_array heap0 HFile.absent qrW [] (by decide)).1,
   (append_reads_full_array heap0 HFile.absent qrW [] (by decide)).2.1⟩

/-! ## Theorems about the query manager -/

/-- C2 counterexample: a failed turn records no `HistoryEntry`.  With an
unparseable `qna.json`, `_update_history` raises; `process_query` logs and
re-raises, and the history file is left exactly as it was: zero entries
were recorded for this turn, refuting the claim that every turn — failed
ones included — appends exactly one entry. -/
theorem failed_turn_appends_no_entry :
    (process_query natShape heap0 qmInvalid "q" (some [("k", 1)]) "t").2.2
      = Except.error (QErr.persistError PErr.parseError) ∧
    (process_query natShape heap0 qmInvalid "q" (some [("k", 1)]) "t").2.1.file
      = qmInvalid.file :=
  ⟨rfl, rfl⟩

/-- C2 amended: a successful turn appends exactly one entry (the
serialized result) to the history file; a failed turn appends none — the
file is left unchanged and the error is re-raised to the caller (the chat
loop catches and displays it without recording anything). -/
theorem one_entry_exactly_on_success {V S : Type} (shape : V → Option S)
    (h : Heap V) (st : QMState V) (q : String) (c : Option (Dict V))
    (now : String) :
    (match process_query shape h st q c now with
     | (h1, st1, Except.ok r) =>
       st1.file = HFile.valid (readHistory st.file ++ [resultEntry h1 r])
     | (_, st1, Except.error _) => st1.file = st.file : Prop) := by
  obtain ⟨g, a, f⟩ := st
  cases c with
  | none =>
    cases f <;>
      simp [process_query, generate, validate_code, update_history, readHistory]
  | some cd =>
    by_cases hcd : cd.isEmpty <;>
      cases f <;>
        simp [process_query, generate, validate_code, update_history, readHistory, hcd]

/-- C3 counterexample: a failed turn does not leave the session context
unchanged.  Starting from an empty `self.context` (cell 0 of the heap)
and an unparseable history file, a turn carrying the context argument
`{"k": 1}` fails — yet after the turn the context dict holds `{"k": 1}`,
not its pre-turn value `{}`: the merge happened before the failure and is
not rolled back. -/
theorem failed_turn_changes_context :
    (process_query natShape heap0 qmInvalid "q" (some [("k", 1)]) "t").2.2
      = Except.error (QErr.persistError PErr.parseError) ∧
    (process_query natShape heap0 qmInvalid "q" (some [("k", 1)]) "t").1.get
        qmInvalid.ctxAddr
      = [("k", 1)] ∧
    heap0.get qmInvalid.ctxAddr = [] :=
  ⟨rfl, rfl, rfl⟩

/-- C3 amended: the context merge is unconditional and happens at the
start of the turn.  After `process_query` — whatever the outcome — the
`self.context` dict holds the pre-turn value updated with the passed
context argument (no rollback on failure; with no or an empty argument it
is unchanged). -/
theorem context_merge_unconditional {V S : Type} (shape : V → Option S)
    (h : Heap V) (st : QMState V) (q : String) (c : Option (Dict V))
    (now : String) (hvalid : st.ctxAddr < h.cells.length) :
    (process_query shape h st q c now).2.1.ctxAddr = st.ctxAddr ∧
    (process_query shape h st q c now).1.get st.ctxAddr
      = dictUpdate (h.get st.ctxAddr) (c.getD []) := by
  obtain ⟨g, a, f⟩ := st
  simp only at hvalid ⊢
  cases c with
  | none =>
    cases f <;>
      simp [process_query, generate, validate_code, update_history,
        Heap.get_alloc_lt _ _ _ hvalid, dictUpdate]
  | some cd =>
    by_cases hcd : cd.isEmpty
    · have hcd' : cd = [] := by simpa using hcd
      subst hcd'
      cases f <;>
        simp [process_query, generate, validate_code, update_history,
          Heap.get_alloc_lt _ _ _ hvalid, dictUpdate]
    · have hlen : a < ((h.set a (dictUpdate (h.get a) cd)).cells).length := by
        simpa [Heap.set] using hvalid
      cases f <;>
        simp [process_query, generate, validate_code, update_history, hcd,
          Heap.get_alloc_lt _ _ _ hlen, Heap.get_set_self _ _ _ hvalid]

/-- Witness for `context_merge_unconditional`: a fresh manager given a
one-key context argument. -/
theorem context_merge_unconditional_witness :
    (process_query natShape heap0 qm0 "q" (some [("k", 2)]) "t").2.1.ctxAddr
      = qm0.ctxAddr ∧
    (process_query natShape heap0 qm0 "q" (some [("k", 2)]) "t").1.get qm0.ctxAddr
      = dictUpdate (heap0.get qm0.ctxAddr) [("k", 2)] :=
  ⟨(context_merge_unconditional natShape heap0 qm0 "q" (some [("k", 2)]) "t"
      (by decide)).1,
   (context_merge_unconditional natShape heap0 qm0 "q" (some [("k", 2)]) "t"
      (by decide)).2⟩

/-! ## Theorems about the chat session loop -/

/-- C9 counterexample: the command match is on `query.lower()`, so the
input `EXIT` — which is not equal to any of the built-in commands `exit`,
`help`, `history` — nevertheless short-circuits (it ends the session)
instead of proceeding into the query pipeline, refuting the claim that all
inputs other than those three proceed into the pipeline. -/
theorem uppercase_exit_shortcircuits :
    (session_step natShape heap0 cs0 "EXIT" "t" "u").2.2 = StepResult.exited ∧
    "EXIT" ≠ "exit" ∧ "EXIT" ≠ "help" ∧ "EXIT" ≠ "history" :=
  ⟨rfl, by decide, by decide, by decide⟩

/-- C9 amended: the built-in commands are matched case-insensitively
(against `query.lower()`) and short-circuit before structuring: `help` and
`history` change nothing at all; `exit` performs no query processing and
adds no entry for its own input (it only flushes the previously
accumulated in-memory entries); every input whose lowercased form is none
of the three commands proceeds into the query pipeline. -/
theorem builtin_commands_shortcircuit {V S : Type} (shape : V → Option S)
    (h : Heap V) (cs : ChatState V) (q now nowH : String) :
    (pyLower q = "help" →
      session_step shape h cs q now nowH = (h, cs, StepResult.helpShown)) ∧
    (pyLower q = "history" →
      session_step shape h cs q now nowH = (h, cs, StepResult.historyShown)) ∧
    (pyLower q = "exit" →
      (session_step shape h cs q now nowH).1 = h ∧
      (session_step shape h cs q now nowH).2.1.history = cs.history ∧
      ∀ r, (session_step shape h cs q now nowH).2.2 ≠ StepResult.processed r) ∧
    (pyLower q ≠ "exit" → pyLower q ≠ "help" → pyLower q ≠ "history" →
      session_step shape h cs q now nowH =
        match process_query shape h cs.qm q none now with
        | (h1, qm1, Except.ok r) =>
          (h1, { qm := qm1, history := cs.history ++ [handleResultEntry r nowH] },
            StepResult.processed r)
        | (h1, qm1, Except.error e) =>
          (h1, { cs with qm := qm1 }, StepResult.errorShown e)) := by
  refine ⟨?_, ?_, ?_, ?_⟩
  · intro hq
    simp [session_step, hq]
  · intro hq
    simp [session_step, hq]
  · intro hq
    cases hb : bulk_update_history cs.qm.file cs.history <;>
      simp [session_step, hq, hb]
  · intro h1 h2 h3
    simp [session_step, h1, h2, h3]

/-- Witness for `builtin_commands_shortcircuit`: the `help` command leaves
the session state untouched. -/
theorem builtin_commands_shortcircuit_witness :
    session_step natShape heap0 cs0 "help" "t" "u"
      = (heap0, cs0, StepResult.helpShown) :=
  (builtin_commands_shortcircuit natShape heap0 cs0 "help" "t" "u").1 rfl

/-! ## Frame theorems for the heap, and the snapshot-immutability claim -/

/-- `process_query` writes in place only to the `self.context` cell: every
other existing cell keeps its content, stays in range, and the context
address is stable across the turn. -/
theorem process_query_heap_frame {V S : Type} (shape : V → Option S)
    (h : Heap V) (st : QMState V) (q : String) (c : Option (Dict V))
    (now : String) (b : Nat) (hb : b ≠ st.ctxAddr) (hlt : b < h.cells.length) :
    (process_query shape h st q c now).1.get b = h.get b ∧
    b < (process_query shape h st q c now).1.cells.length ∧
    (process_query shape h st q c now).2.1.ctxAddr = st.ctxAddr := by
  obtain ⟨g, a, f⟩ := st
  simp only at hb hlt ⊢
  have hab : a ≠ b := fun hc => hb hc.symm
  have base : ∀ hm : Heap V, hm.get b = h.get b → b < hm.cells.length →
      ∀ f1 : HFile V,
        (process_query shape hm ⟨g, a, f1⟩ q none now).1.get b = h.get b ∧
        b < (process_query shape hm ⟨g, a, f1⟩ q none now).1.cells.length ∧
        (process_query shape hm ⟨g, a, f1⟩ q none now).2.1.ctxAddr = a := by
    intro hm hmget hmlt f1
    have hlen : b < (hm.alloc (hm.get a)).1.cells.length := by
      rw [Heap.length_alloc]
      exact Nat.lt_succ_of_lt hmlt
    cases f1 <;>
      exact ⟨(Heap.get_alloc_lt hm (hm.get a) b hmlt).trans hmget, hlen, rfl⟩
  cases c with
  | none => exact base h rfl hlt f
  | some cd =>
    by_cases hcd : cd.isEmpty
    · have hcd' : cd = [] := by simpa using hcd
      subst hcd'
      exact base h rfl hlt f
    · rw [process_query_merge_factor shape h ⟨g, a, f⟩ q cd now hcd]
      exact base (h.set a (dictUpdate (h.get a) cd))
        (Heap.get_set_ne h a b _ hab)
        (by simpa [Heap.set] using hlt) f

/-- Running any number of further turns never touches an existing cell
other than the manager's `self.context` cell. -/
theorem process_turns_heap_frame {V S : Type} (shape : V → Option S)
    (h : Heap V) (st : QMState V) (ts : List (Turn V)) (b : Nat)
    (hb : b ≠ st.ctxAddr) (hlt : b < h.cells.length) :
    (process_turns shape h st ts).1.get b = h.get b := by
  induction ts generalizing h st with
  | nil => rfl
  | cons t ts ih =>
    obtain ⟨q, c, now⟩ := t
    obtain ⟨hget, hlen, haddr⟩ := process_query_heap_frame shape h st q c now b hb hlt
    rcases hpq : process_query shape h st q c now with ⟨h1, st1, r⟩
    rw [hpq] at hget hlen haddr
    have step : (process_turns shape h st ((q, c, now) :: ts)).1
        = (process_turns shape h1 st1 ts).1 := by
      cases r <;> simp [process_turns, hpq]
    rw [step, ih h1 st1 (haddr ▸ hb) hlen, hget]

/-- Characterization of a successful `process_query`: the snapshot address
in the result is the fresh cell just past the pre-turn heap, the heap grew
by exactly that one cell, the context address is unchanged, and the
snapshot cell's content equals the (post-merge) `self.context` content —
the copy taken by `_create_result`. -/
theorem process_query_ok_result {V S : Type} (shape : V → Option S)
    (h : Heap V) (st : QMState V) (q : String) (c : Option (Dict V))
    (now : String) (h1 : Heap V) (st1 : QMState V) (r : QueryResult V)
    (hvalid : st.ctxAddr < h.cells.length)
    (hok : process_query shape h st q c now = (h1, st1, Except.ok r)) :
    r.context = h.cells.length ∧ h1.cells.length = h.cells.length + 1 ∧
    st1.ctxAddr = st.ctxAddr ∧ h1.get r.context = h1.get st1.ctxAddr := by
  obtain ⟨g, a, f⟩ := st
  simp only at hvalid ⊢
  cases c with
  | none =>
    cases f with
    | invalid =>
      simp [process_query, generate, validate_code, update_history] at hok
    | absent =>
      simp only [process_query, generate, validate_code, update_history,
        Heap.alloc, Prod.mk.injEq, Except.ok.injEq] at hok
      obtain ⟨hh, hs, hr⟩ := hok
      subst hh; subst hs; subst hr
      refine ⟨rfl, by simp, rfl, ?_⟩
      exact (Heap.get_alloc_fresh h (h.get a) _ rfl).trans
        (Heap.get_alloc_lt h (h.get a) a hvalid).symm
    | valid es =>
      simp only [process_query, generate, validate_code, update_history,
        Heap.alloc, Prod.mk.injEq, Except.ok.injEq] at hok
      obtain ⟨hh, hs, hr⟩ := hok
      subst hh; subst hs; subst hr
      refine ⟨rfl, by simp, rfl, ?_⟩
      exact (Heap.get_alloc_fresh h (h.get a) _ rfl).trans
        (Heap.get_alloc_lt h (h.get a) a hvalid).symm
  | some cd =>
    by_cases hcd : cd.isEmpty
    · cases f with
      | invalid =>
        simp [process_query, generate, validate_code, update_history, hcd] at hok
      | absent =>
        simp only [process_query, generate, validate_code, update_history, hcd,
          if_true, Heap.alloc, Prod.mk.injEq, Except.ok.injEq] at hok
        obtain ⟨hh, hs, hr⟩ := hok
        subst hh; subst hs; subst hr
        refine ⟨rfl, by simp, rfl, ?_⟩
        exact (Heap.get_alloc_fresh h (h.get a) _ rfl).trans
          (Heap.get_alloc_lt h (h.get a) a hvalid).symm
      | valid es =>
        simp only [process_query, generate, validate_code, update_history, hcd,
          if_true, Heap.alloc, Prod.mk.injEq, Except.ok.injEq] at hok
        obtain ⟨hh, hs, hr⟩ := hok
        subst hh; subst hs; subst hr
        refine ⟨rfl, by simp, rfl, ?_⟩
        exact (Heap.get_alloc_fresh h (h.get a) _ rfl).trans
          (Heap.get_alloc_lt h (h.get a) a hvalid).symm
    · have h1lt : a < ((h.set a (dictUpdate (h.get a) cd)).cells).length := by
        simpa [Heap.set] using hvalid
      cases f with
      | invalid =>
        simp [process_query, generate, validate_code, update_history, hcd] at hok
      | absent =>
        simp only [process_query, generate, validate_code, update_history, hcd,
          if_false, Heap.alloc, Prod.mk.injEq, Except.ok.injEq] at hok
        obtain ⟨hh, hs, hr⟩ := hok
        subst hh; subst hs; subst hr
        refine ⟨by simp [Heap.set], by simp [Heap.set], rfl, ?_⟩
        exact (Heap.get_alloc_fresh (h.set a (dictUpdate (h.get a) cd))
            ((h.set a (dictUpdate (h.get a) cd)).get a) _ rfl).trans
          (Heap.get_alloc_lt (h.set a (dictUpdate (h.get a) cd))
            ((h.set a (dictUpdate (h.get a) cd)).get a) a h1lt).symm
      | valid es =>
        simp only [process_query, generate, validate_code, update_history, hcd,
          if_false, Heap.alloc, Prod.mk.injEq, Except.ok.injEq] at hok
        obtain ⟨hh, hs, hr⟩ := hok
        subst hh; subst hs; subst hr
        refine ⟨by simp [Heap.set], by simp [Heap.set], rfl, ?_⟩
        exact (Heap.get_alloc_fresh (h.set a (dictUpdate (h.get a) cd))
            ((h.set a (dictUpdate (h.get a) cd)).get a) _ rfl).trans
          (Heap.get_alloc_lt (h.set a (dictUpdate (h.get a) cd))
            ((h.set a (dictUpdate (h.get a) cd)).get a) a h1lt).symm

/-- C10: the context recorded in a `QueryResult` is a private copy taken at
result-creation time.  After a successful turn, the snapshot cell named by
the result equals the manager's `self.context` at that moment, and no
sequence of later turns (each of which may merge new keys into
`self.context` in place) changes the snapshot's content. -/
theorem result_context_snapshot_immutable {V S : Type} (shape : V → Option S)
    (h : Heap V) (st : QMState V) (q : String) (c : Option (Dict V))
    (now : String) (ts : List (Turn V)) (h1 : Heap V) (st1 : QMState V)
    (r : QueryResult V) (hvalid : st.ctxAddr < h.cells.length)
    (hok : process_query shape h st q c now = (h1, st1, Except.ok r)) :
    (process_turns shape h1 st1 ts).1.get r.context = h1.get r.context ∧
    h1.get r.context = h1.get st1.ctxAddr := by
  obtain ⟨hctx, hlen, haddr, hcopy⟩ :=
    process_query_ok_result shape h st q c now h1 st1 r hvalid hok
  refine ⟨?_, hcopy⟩
  apply process_turns_heap_frame
  · rw [hctx, haddr]
    exact Ne.symm (Nat.ne_of_lt hvalid)
  · rw [hctx, hlen]
    exact Nat.lt_succ_self _

/-- Witness for `result_context_snapshot_immutable`: after the turn
`("q", {"k": 1})` succeeds, a later turn merging `{"k": 5}` leaves the
first result's snapshot cell unchanged. -/
theorem result_context_snapshot_immutable_witness :
    (process_turns natShape h1W st1W [("q2", some [("k", 5)], "t2")]).1.get
        qrOkW.context
      = h1W.get qrOkW.context ∧
    h1W.get qrOkW.context = h1W.get st1W.ctxAddr :=
  result_context_snapshot_immutable natShape heap0 qm0 "q" (some [("k", 1)]) "t"
    [("q2", some [("k", 5)], "t2")] h1W st1W qrOkW (by decide) rfl

end FeatheryML
